import Mathlib

/-!
Shallow embedding of `server.js` (FlappyPlace): a collaborative pixel-canvas
server.  The canvas is a flat `Uint8Array` of `CANVAS_SIZE * CANVAS_SIZE`
color indices; we model it as a function from flat index (`Int`) to stored
value (`Int`).  JavaScript numbers appearing in the relevant code paths are
integers, so coordinates, color indices and timestamps are modelled as `Int`.
-/

namespace FlappyPlace

/-- `const CANVAS_SIZE = 2000;` -/
def CANVAS_SIZE : Nat := 2000

/-- `const COOLDOWN_MS = 5000;` -/
def COOLDOWN_MS : Int := 5000

/-- `const COLORS = [...]` — the fixed 16-color palette, as hex strings. -/
def COLORS : List String :=
  ["#FFFFFF", "#E4E4E4", "#888888", "#222222",
   "#FFA7D1", "#E50000", "#E59500", "#A06A42",
   "#E5D900", "#94E044", "#02BE01", "#00D3DD",
   "#0083C7", "#0000EA", "#CF6EE4", "#820080"]

/-- The canvas `Uint8Array`, viewed as flat index ↦ stored value.
`const canvas = new Uint8Array(CANVAS_SIZE * CANVAS_SIZE)` starts all-zero. -/
def Canvas : Type := Int → Int

/-- The freshly allocated canvas: every cell is `0`. -/
def initialCanvas : Canvas := fun _ => 0

/-- `getPixelIndex(x, y) { return y * CANVAS_SIZE + x; }` -/
def getPixelIndex (x y : Int) : Int := y * (CANVAS_SIZE : Int) + x

/-- `setPixel(x, y, colorIndex)`: bounds- and palette-check, then write the
cell.  Returns the boolean result together with the canvas after the call. -/
def setPixel (c : Canvas) (x y colorIndex : Int) : Bool × Canvas :=
  if x < 0 ∨ x ≥ (CANVAS_SIZE : Int) ∨ y < 0 ∨ y ≥ (CANVAS_SIZE : Int) then (false, c)
  else if colorIndex < 0 ∨ colorIndex ≥ (COLORS.length : Int) then (false, c)
  else (true, fun i => if i = getPixelIndex x y then colorIndex else c i)

/-- `getPixel(x, y) { return canvas[getPixelIndex(x, y)]; }` -/
def getPixel (c : Canvas) (x y : Int) : Int := c (getPixelIndex x y)

/-- C1: for valid coordinates and a valid color index, `setPixel` returns
`true` and a subsequent `getPixel` at that cell returns the written index. -/
theorem set_then_get (c : Canvas) (x y colorIndex : Int)
    (hx0 : 0 ≤ x) (hx : x < (CANVAS_SIZE : Int))
    (hy0 : 0 ≤ y) (hy : y < (CANVAS_SIZE : Int))
    (hc0 : 0 ≤ colorIndex) (hc : colorIndex < 16) :
    (setPixel c x y colorIndex).1 = true ∧
      getPixel (setPixel c x y colorIndex).2 x y = colorIndex := by
  have hxy : ¬ (x < 0 ∨ x ≥ (CANVAS_SIZE : Int) ∨ y < 0 ∨ y ≥ (CANVAS_SIZE : Int)) := by
    push_neg; exact ⟨hx0, hx, hy0, hy⟩
  have hcol : ¬ (colorIndex < 0 ∨ colorIndex ≥ (COLORS.length : Int)) := by
    push_neg
    refine ⟨hc0, ?_⟩
    have : COLORS.length = 16 := by decide
    rw [this]; exact_mod_cast hc
  unfold setPixel getPixel
  rw [if_neg hxy, if_neg hcol]
  exact ⟨rfl, by simp⟩

/-- Concrete instance of `set_then_get`. -/
theorem set_then_get_witness :
    (setPixel initialCanvas 3 5 7).1 = true ∧
      getPixel (setPixel initialCanvas 3 5 7).2 3 5 = 7 :=
  set_then_get initialCanvas 3 5 7 (by decide) (by decide) (by decide) (by decide)
    (by decide) (by decide)

/-- C2: an out-of-bounds coordinate or out-of-range color index makes
`setPixel` return `false` and leave every cell of the canvas unchanged. -/
theorem set_invalid_noop (c : Canvas) (x y colorIndex : Int)
    (h : x < 0 ∨ x ≥ (CANVAS_SIZE : Int) ∨ y < 0 ∨ y ≥ (CANVAS_SIZE : Int) ∨
         colorIndex < 0 ∨ colorIndex ≥ 16) :
    (setPixel c x y colorIndex).1 = false ∧ (setPixel c x y colorIndex).2 = c := by
  have hlen : (COLORS.length : Int) = 16 := by decide
  unfold setPixel
  by_cases hxy : x < 0 ∨ x ≥ (CANVAS_SIZE : Int) ∨ y < 0 ∨ y ≥ (CANVAS_SIZE : Int)
  · rw [if_pos hxy]; exact ⟨rfl, rfl⟩
  · rw [if_neg hxy]
    have hcol : colorIndex < 0 ∨ colorIndex ≥ (COLORS.length : Int) := by
      rw [hlen]
      rcases h with h | h | h | h | h | h
      · exact absurd (Or.inl h) hxy
      · exact absurd (Or.inr (Or.inl h)) hxy
      · exact absurd (Or.inr (Or.inr (Or.inl h))) hxy
      · exact absurd (Or.inr (Or.inr (Or.inr h))) hxy
      · exact Or.inl h
      · exact Or.inr h
    rw [if_pos hcol]
    exact ⟨rfl, rfl⟩

/-- Concrete instance of `set_invalid_noop`. -/
theorem set_invalid_noop_witness :
    (setPixel initialCanvas (-1) 0 3).1 = false ∧
      (setPixel initialCanvas (-1) 0 3).2 = initialCanvas :=
  set_invalid_noop initialCanvas (-1) 0 3 (Or.inl (by decide))

/-! ## `getRegion` -/

/-- The inner loop of `getRegion` for row `dy`: the zero-initialized buffer
cell receives `canvas[getPixelIndex(worldX, worldY)]` exactly when the world
coordinate `(worldX, worldY) = (x + dx, y + dy)` is inside the canvas, and
keeps `0` otherwise. -/
def regionRow (c : Canvas) (x y : Int) (width : Nat) (dy : Nat) : List Int :=
  (List.range width).map (fun (dx : Nat) =>
    if 0 ≤ x + (dx : Int) ∧ x + (dx : Int) < (CANVAS_SIZE : Int) ∧
       0 ≤ y + (dy : Int) ∧ y + (dy : Int) < (CANVAS_SIZE : Int)
    then c (getPixelIndex (x + (dx : Int)) (y + (dy : Int))) else 0)

/-- `getRegion(x, y, width, height)`: row-major buffer, entry `dy*width+dx`
holding row `dy`, column `dx`. -/
def getRegion (c : Canvas) (x y : Int) (width height : Nat) : List Int :=
  (List.range height).flatMap (regionRow c x y width)

/-- Each row of the region buffer has `width` entries. -/
theorem regionRow_length (c : Canvas) (x y : Int) (width dy : Nat) :
    (regionRow c x y width dy).length = width := by
  unfold regionRow
  rw [List.length_map, List.length_range]

/-- Entry `dx` of row `dy`. -/
theorem regionRow_get (c : Canvas) (x y : Int) (width dy dx : Nat)
    (h : dx < (regionRow c x y width dy).length) :
    (regionRow c x y width dy).get ⟨dx, h⟩ =
      (if 0 ≤ x + (dx : Int) ∧ x + (dx : Int) < (CANVAS_SIZE : Int) ∧
          0 ≤ y + (dy : Int) ∧ y + (dy : Int) < (CANVAS_SIZE : Int)
       then c (getPixelIndex (x + (dx : Int)) (y + (dy : Int))) else 0) := by
  unfold regionRow
  simp only [List.get_eq_getElem, List.getElem_map, List.getElem_range]

/-- Appending one more row. -/
theorem getRegion_split (c : Canvas) (x y : Int) (width h : Nat) :
    getRegion c x y width (h + 1) =
      getRegion c x y width h ++ regionRow c x y width h := by
  unfold getRegion
  rw [show List.range (h + 1) = List.range h ++ [h] by simpa using List.range_succ h]
  simp

/-- The region buffer has `height * width` entries. -/
theorem getRegion_length (c : Canvas) (x y : Int) (width height : Nat) :
    (getRegion c x y width height).length = height * width := by
  induction height with
  | zero => simp [getRegion]
  | succ h ih =>
      rw [getRegion_split, List.length_append, ih, regionRow_length, Nat.succ_mul]

/-- Entry `dy*width+dx` of the region buffer is the cell at world coordinate
`(x+dx, y+dy)` when that is inside the canvas, and `0` otherwise. -/
theorem getRegion_get (c : Canvas) (x y : Int) (width : Nat) :
    ∀ height dx dy, dx < width → dy < height →
      ∀ hi : dy * width + dx < (getRegion c x y width height).length,
      (getRegion c x y width height).get ⟨dy * width + dx, hi⟩ =
        (if 0 ≤ x + (dx : Int) ∧ x + (dx : Int) < (CANVAS_SIZE : Int) ∧
            0 ≤ y + (dy : Int) ∧ y + (dy : Int) < (CANVAS_SIZE : Int)
         then c (getPixelIndex (x + dx) (y + dy)) else 0) := by
  intro height
  induction height with
  | zero => intro dx dy _ hdy; omega
  | succ h ih =>
      intro dx dy hdx hdy hi
      simp only [List.get_eq_getElem]
      rw [List.getElem_of_eq (getRegion_split c x y width h) hi]
      by_cases hcase : dy < h
      · have hlt : dy * width + dx < (getRegion c x y width h).length := by
          rw [getRegion_length]
          have h1 : dy * width + dx < (dy + 1) * width := by
            rw [Nat.succ_mul]; omega
          exact lt_of_lt_of_le h1 (Nat.mul_le_mul_right width hcase)
        rw [List.getElem_append_left hlt]
        have := ih dx dy hdx hcase hlt
        simpa [List.get_eq_getElem] using this
      · have hdy' : dy = h := by omega
        subst hdy'
        have hge : (getRegion c x y width dy).length ≤ dy * width + dx := by
          rw [getRegion_length]; omega
        rw [List.getElem_append_right hge]
        have hsub : dy * width + dx - (getRegion c x y width dy).length = dx := by
          rw [getRegion_length]; omega
        have hrow : dx < (regionRow c x y width dy).length := by
          rw [regionRow_length]; exact hdx
        have := regionRow_get c x y width dy dx hrow
        simp only [List.get_eq_getElem] at this
        simp only [hsub]
        exact this

/-- C3: `getRegion` returns a buffer of exactly `width * height` entries;
entry `(dx, dy)` holds the canvas cell at world coordinate `(x+dx, y+dy)`
when inside the canvas and `0` otherwise; and for a rectangle entirely
outside the canvas every entry of the buffer is `0`. -/
theorem getRegion_spec (c : Canvas) (x y : Int) (width height : Nat) :
    (getRegion c x y width height).length = width * height ∧
    (∀ dx dy, dx < width → dy < height →
      ∀ hi : dy * width + dx < (getRegion c x y width height).length,
      (getRegion c x y width height).get ⟨dy * width + dx, hi⟩ =
        (if 0 ≤ x + (dx : Int) ∧ x + (dx : Int) < (CANVAS_SIZE : Int) ∧
            0 ≤ y + (dy : Int) ∧ y + (dy : Int) < (CANVAS_SIZE : Int)
         then getPixel c (x + dx) (y + dy) else 0)) ∧
    ((x + (width : Int) ≤ 0 ∨ (CANVAS_SIZE : Int) ≤ x ∨
        y + (height : Int) ≤ 0 ∨ (CANVAS_SIZE : Int) ≤ y) →
      ∀ v ∈ getRegion c x y width height, v = 0) := by
  refine ⟨by rw [getRegion_length]; exact Nat.mul_comm height width,
    fun dx dy hdx hdy hi => getRegion_get c x y width height dx dy hdx hdy hi, ?_⟩
  intro hout v hv
  unfold getRegion regionRow at hv
  simp only [List.mem_flatMap, List.mem_map, List.mem_range] at hv
  obtain ⟨dy, hdy, dx, hdx, hval⟩ := hv
  rw [← hval]
  rw [if_neg]
  rintro ⟨h1, h2, h3, h4⟩
  have hdx' : (dx : Int) < (width : Int) := by exact_mod_cast hdx
  have hdy' : (dy : Int) < (height : Int) := by exact_mod_cast hdy
  rcases hout with h | h | h | h <;> omega

/-- Concrete instance of `getRegion_spec`: a 2×3 rectangle entirely outside
the canvas is all zeros and has 6 entries. -/
theorem getRegion_spec_witness :
    (getRegion initialCanvas (-10) (-10) 2 3).length = 2 * 3 ∧
      ∀ v ∈ getRegion initialCanvas (-10) (-10) 2 3, v = 0 := by
  have h := getRegion_spec initialCanvas (-10) (-10) 2 3
  exact ⟨h.1, h.2.2 (Or.inl (by decide))⟩

/-! ## Rate limiter (`userCooldowns` map, `canUserDraw`, `updateUserCooldown`) -/

/-- `const userCooldowns = new Map()`: identity ↦ last-draw timestamp. -/
def Cooldowns : Type := String → Option Int

/-- The initially empty cooldown map. -/
def emptyCooldowns : Cooldowns := fun _ => none

/-- `canUserDraw(userId)`.  `if (!lastDraw) return true` is a JavaScript
truthiness test: it fires both when the map has no entry (`undefined`) and
when the stored timestamp is the falsy number `0`. -/
def canUserDraw (m : Cooldowns) (userId : String) (now : Int) : Bool :=
  match m userId with
  | none => true
  | some lastDraw =>
      if lastDraw = 0 then true else decide (now - lastDraw ≥ COOLDOWN_MS)

/-- `updateUserCooldown(userId) { userCooldowns.set(userId, Date.now()); }` -/
def updateUserCooldown (m : Cooldowns) (userId : String) (now : Int) : Cooldowns :=
  fun uid => if uid = userId then some now else m uid

/-- C4 counterexample: after `updateUserCooldown` at time `t = 0`,
`canUserDraw` one millisecond later is already `true` (the claim says it
must be `false` for the whole 5000 ms window), because the stored timestamp
`0` is falsy and is treated like a missing record. -/
theorem canDraw_claim_counterexample :
    canUserDraw (updateUserCooldown emptyCooldowns "u" 0) "u" 1 = true ∧
      (1 : Int) - 0 < COOLDOWN_MS := by
  constructor
  · rfl
  · decide

/-- C4 (amended: the record time `t` must be nonzero): a fresh identity can
draw; after `updateUserCooldown` at `t ≠ 0`, `canUserDraw` at `t'` is `false`
while `t' - t < COOLDOWN_MS` and `true` once `t' - t ≥ COOLDOWN_MS`. -/
theorem canDraw_cooldown_cycle (m : Cooldowns) (uid : String) (t t' : Int)
    (ht : t ≠ 0) :
    (m uid = none → canUserDraw m uid t = true) ∧
    (t' - t < COOLDOWN_MS →
      canUserDraw (updateUserCooldown m uid t) uid t' = false) ∧
    (t' - t ≥ COOLDOWN_MS →
      canUserDraw (updateUserCooldown m uid t) uid t' = true) := by
  have hget : updateUserCooldown m uid t uid = some t := by
    unfold updateUserCooldown; rw [if_pos rfl]
  refine ⟨?_, ?_, ?_⟩
  · intro hnone
    unfold canUserDraw
    rw [hnone]
  · intro hlt
    unfold canUserDraw
    rw [hget]
    show (if t = 0 then true else decide (t' - t ≥ COOLDOWN_MS)) = false
    rw [if_neg ht]
    simpa using not_le.mpr hlt
  · intro hge
    unfold canUserDraw
    rw [hget]
    show (if t = 0 then true else decide (t' - t ≥ COOLDOWN_MS)) = true
    rw [if_neg ht]
    simpa using hge

/-- Concrete instance of `canDraw_cooldown_cycle`. -/
theorem canDraw_cooldown_cycle_witness :
    canUserDraw emptyCooldowns "u" 10 = true ∧
      canUserDraw (updateUserCooldown emptyCooldowns "u" 10) "u" 11 = false ∧
      canUserDraw (updateUserCooldown emptyCooldowns "u" 10) "u" 5010 = true := by
  obtain ⟨h1, h2, _⟩ := canDraw_cooldown_cycle emptyCooldowns "u" 10 11 (by decide)
  obtain ⟨_, _, h3⟩ := canDraw_cooldown_cycle emptyCooldowns "u" 10 5010 (by decide)
  exact ⟨h1 rfl, h2 (by decide), h3 (by decide)⟩

/-- The periodic cooldown sweep: delete every entry whose timestamp is more
than `COOLDOWN_MS * 10` old. -/
def sweepCooldowns (m : Cooldowns) (now : Int) : Cooldowns :=
  fun uid =>
    match m uid with
    | none => none
    | some ts => if now - ts > COOLDOWN_MS * 10 then none else some ts

/-- C10: sweeping at time `now` never changes a `canUserDraw` decision taken
at any time `t' ≥ now`: deleted records are over ten windows old, and both an
absent record and a record at least one window old yield `true`. -/
theorem sweep_preserves_canDraw (m : Cooldowns) (uid : String) (now t' : Int)
    (h : now ≤ t') :
    canUserDraw (sweepCooldowns m now) uid t' = canUserDraw m uid t' := by
  unfold canUserDraw sweepCooldowns
  cases hm : m uid with
  | none => rfl
  | some ts =>
      show (match (if now - ts > COOLDOWN_MS * 10 then (none : Option Int) else some ts) with
            | none => true
            | some lastDraw =>
                if lastDraw = 0 then true else decide (t' - lastDraw ≥ COOLDOWN_MS)) =
          (if ts = 0 then true else decide (t' - ts ≥ COOLDOWN_MS))
      by_cases hdel : now - ts > COOLDOWN_MS * 10
      · rw [if_pos hdel]
        by_cases hts : ts = 0
        · rw [if_pos hts]
        · rw [if_neg hts]
          have : t' - ts ≥ COOLDOWN_MS := by
            unfold COOLDOWN_MS at hdel ⊢
            omega
          simp [this]
      · rw [if_neg hdel]

/-- Concrete instance of `sweep_preserves_canDraw`, on a map holding one
stale record. -/
theorem sweep_preserves_canDraw_witness :
    canUserDraw (sweepCooldowns (updateUserCooldown emptyCooldowns "u" 1) 60000) "u" 60000 =
      canUserDraw (updateUserCooldown emptyCooldowns "u" 1) "u" 60000 :=
  sweep_preserves_canDraw (updateUserCooldown emptyCooldowns "u" 1) "u" 60000 60000
    (by decide)

/-! ## Connection protocol: the `drawPixel` message branch -/

/-- One entry of `pendingUpdates`: `{ x, y, color }`. -/
structure PixelUpdate where
  x : Int
  y : Int
  color : Int
deriving DecidableEq, Repr

/-- The process-wide mutable state touched by a `drawPixel` message. -/
structure ServerState where
  canvas : Canvas
  userCooldowns : Cooldowns
  pendingUpdates : List PixelUpdate

/-- The replies the `drawPixel` branch can send to the requester. -/
inductive Reply where
  | cooldown (remaining : Int)
  | drawSuccess (cooldownUntil : Int)
deriving DecidableEq

/-- The `msg.type === 'drawPixel'` branch of the message handler: cooldown
gate (replying with the remaining wait), then `setPixel`; on success record
the cooldown, push one pending update, and acknowledge with
`Date.now() + COOLDOWN_MS`.  Returns the new state and the optional reply. -/
def handleDrawPixel (s : ServerState) (userId : String) (now x y color : Int) :
    ServerState × Option Reply :=
  if canUserDraw s.userCooldowns userId now = false then
    (s, some (Reply.cooldown (COOLDOWN_MS - (now - (s.userCooldowns userId).getD 0))))
  else
    let r := setPixel s.canvas x y color
    if r.1 then
      ({ canvas := r.2,
         userCooldowns := updateUserCooldown s.userCooldowns userId now,
         pendingUpdates := s.pendingUpdates ++ [⟨x, y, color⟩] },
       some (Reply.drawSuccess (now + COOLDOWN_MS)))
    else (s, none)

/-- C5: the three-way outcome of a `drawPixel` request.  On a failed cooldown
gate (which implies a stored record) the only effect is a cooldown reply with
remaining time `window − elapsed`; an invalid `setPixel` is silently dropped
with no state change; a valid one records the cooldown, enqueues exactly one
update and replies with the next-eligible timestamp `now + COOLDOWN_MS`. -/
theorem drawPixel_protocol (s : ServerState) (uid : String) (now x y color : Int) :
    (∀ last, s.userCooldowns uid = some last →
      canUserDraw s.userCooldowns uid now = false →
      handleDrawPixel s uid now x y color =
        (s, some (Reply.cooldown (COOLDOWN_MS - (now - last))))) ∧
    (canUserDraw s.userCooldowns uid now = true →
      (setPixel s.canvas x y color).1 = false →
      handleDrawPixel s uid now x y color = (s, none)) ∧
    (canUserDraw s.userCooldowns uid now = true →
      (setPixel s.canvas x y color).1 = true →
      handleDrawPixel s uid now x y color =
        ({ canvas := (setPixel s.canvas x y color).2,
           userCooldowns := updateUserCooldown s.userCooldowns uid now,
           pendingUpdates := s.pendingUpdates ++ [⟨x, y, color⟩] },
         some (Reply.drawSuccess (now + COOLDOWN_MS)))) := by
  refine ⟨?_, ?_, ?_⟩
  · intro last hlast hgate
    unfold handleDrawPixel
    rw [if_pos hgate, hlast]
    rfl
  · intro hgate hset
    unfold handleDrawPixel
    rw [hgate]
    simp only [Bool.true_eq_false, if_false, hset]
    rfl
  · intro hgate hset
    unfold handleDrawPixel
    rw [hgate]
    simp only [Bool.true_eq_false, if_false, hset]
    rfl

/-- Concrete instance of `drawPixel_protocol`: an accepted draw on a fresh
state. -/
theorem drawPixel_protocol_witness :
    handleDrawPixel ⟨initialCanvas, emptyCooldowns, []⟩ "u" 100 3 5 7 =
      ({ canvas := (setPixel initialCanvas 3 5 7).2,
         userCooldowns := updateUserCooldown emptyCooldowns "u" 100,
         pendingUpdates := [⟨3, 5, 7⟩] },
       some (Reply.drawSuccess (100 + COOLDOWN_MS))) := by
  have h := (drawPixel_protocol ⟨initialCanvas, emptyCooldowns, []⟩ "u" 100 3 5 7).2.2
    rfl (by decide)
  simpa using h

/-! ## Broadcast scheduler (`pendingUpdates` / the `setInterval` flush tick) -/

/-- Scheduler state: the pending queue plus the batches flushed so far, in
flush order. -/
structure BroadcastState where
  pendingUpdates : List PixelUpdate
  batches : List (List PixelUpdate)
deriving DecidableEq

/-- An event of the scheduler: an accepted draw is pushed, or the 100 ms
interval fires. -/
inductive BroadcastEvent where
  | enqueue (u : PixelUpdate)
  | tick
deriving DecidableEq

/-- One step.  `enqueue` is `pendingUpdates.push(...)`; `tick` is the
interval body: return if the queue is empty, otherwise `splice(0)` the whole
queue into one outbound batch. -/
def broadcastStep (s : BroadcastState) (e : BroadcastEvent) : BroadcastState :=
  match e with
  | .enqueue u => { s with pendingUpdates := s.pendingUpdates ++ [u] }
  | .tick =>
      if s.pendingUpdates = [] then s
      else { pendingUpdates := [], batches := s.batches ++ [s.pendingUpdates] }

/-- Run a sequence of events from a state. -/
def broadcastRun (s : BroadcastState) (es : List BroadcastEvent) : BroadcastState :=
  es.foldl broadcastStep s

/-- The accepted draws of an event sequence, in order. -/
def enqueuedOf (es : List BroadcastEvent) : List PixelUpdate :=
  es.filterMap (fun e => match e with | .enqueue u => some u | .tick => none)

/-- Running preserves `flatten batches ++ pending = previous ++ enqueued`. -/
theorem broadcastRun_flatten (es : List BroadcastEvent) :
    ∀ s : BroadcastState,
      (broadcastRun s es).batches.flatten ++ (broadcastRun s es).pendingUpdates =
        s.batches.flatten ++ s.pendingUpdates ++ enqueuedOf es := by
  induction es with
  | nil => intro s; simp [broadcastRun, enqueuedOf]
  | cons e es ih =>
      intro s
      have hrun : broadcastRun s (e :: es) = broadcastRun (broadcastStep s e) es := rfl
      rw [hrun, ih (broadcastStep s e)]
      cases e with
      | enqueue u =>
          show (broadcastStep s (.enqueue u)).batches.flatten ++
              (broadcastStep s (.enqueue u)).pendingUpdates ++ enqueuedOf es =
            s.batches.flatten ++ s.pendingUpdates ++ enqueuedOf (.enqueue u :: es)
          unfold broadcastStep enqueuedOf
          simp
      | tick =>
          show (broadcastStep s .tick).batches.flatten ++
              (broadcastStep s .tick).pendingUpdates ++ enqueuedOf es =
            s.batches.flatten ++ s.pendingUpdates ++ enqueuedOf (.tick :: es)
          unfold broadcastStep
          by_cases hp : s.pendingUpdates = []
          · rw [if_pos hp]
            simp [enqueuedOf, hp]
          · rw [if_neg hp]
            simp [enqueuedOf]

/-- C6: a tick with a non-empty queue drains the whole queue into exactly one
new batch; a tick with an empty queue changes nothing (no message); and over
any event sequence from the initial state the concatenation of all flushed
batches followed by the still-pending queue is exactly the ordered sequence
of accepted draws — no drops, no duplicates, order preserved. -/
theorem broadcast_batching (es : List BroadcastEvent) (s : BroadcastState) :
    (s.pendingUpdates ≠ [] →
      broadcastStep s .tick =
        ⟨[], s.batches ++ [s.pendingUpdates]⟩) ∧
    (s.pendingUpdates = [] → broadcastStep s .tick = s) ∧
    (broadcastRun ⟨[], []⟩ es).batches.flatten ++
        (broadcastRun ⟨[], []⟩ es).pendingUpdates = enqueuedOf es := by
  refine ⟨?_, ?_, ?_⟩
  · intro hp
    unfold broadcastStep
    rw [if_neg hp]
  · intro hp
    unfold broadcastStep
    rw [if_pos hp]
  · have h := broadcastRun_flatten es ⟨[], []⟩
    simpa using h

/-- Concrete instance of `broadcast_batching`: two draws, a flush, one more
draw, another flush. -/
theorem broadcast_batching_witness :
    broadcastStep ⟨[⟨1, 2, 3⟩], []⟩ .tick = ⟨[], [[⟨1, 2, 3⟩]]⟩ ∧
      (broadcastRun ⟨[], []⟩
          [.enqueue ⟨1, 2, 3⟩, .enqueue ⟨4, 5, 6⟩, .tick, .enqueue ⟨7, 8, 9⟩, .tick]).batches.flatten ++
        (broadcastRun ⟨[], []⟩
          [.enqueue ⟨1, 2, 3⟩, .enqueue ⟨4, 5, 6⟩, .tick, .enqueue ⟨7, 8, 9⟩, .tick]).pendingUpdates =
        enqueuedOf [.enqueue ⟨1, 2, 3⟩, .enqueue ⟨4, 5, 6⟩, .tick, .enqueue ⟨7, 8, 9⟩, .tick] := by
  have h := broadcast_batching
    [.enqueue ⟨1, 2, 3⟩, .enqueue ⟨4, 5, 6⟩, .tick, .enqueue ⟨7, 8, 9⟩, .tick]
    ⟨[⟨1, 2, 3⟩], []⟩
  exact ⟨h.1 (by decide), h.2.2⟩

/-! ## Snapshot-save serialization (`_isSaving`, `/save-snapshot`, `saveAndExit`) -/

/-- Which code path started an encode: the `/save-snapshot` handler or the
shutdown path. -/
inductive SaveKind where
  | manual
  | shutdown
deriving DecidableEq

/-- Observable save/exit state: the `_isSaving` flag, the queue of encodes
actually running, counters for started encodes and 409 replies, and whether
`process.exit` was reached. -/
structure SaveMachine where
  isSaving : Bool
  inflight : List SaveKind
  savesStarted : Nat
  conflicts : Nat
  exited : Bool
deriving DecidableEq

/-- State at process start. -/
def initSave : SaveMachine := ⟨false, [], 0, 0, false⟩

/-- Events: a `POST /save-snapshot` request, a termination signal, and the
settling of the oldest running encode's promise. -/
inductive SaveEvent where
  | forceSave
  | signal
  | done
deriving DecidableEq

/-- One step.  `forceSave`: reply 409 if `_isSaving`, else set the flag and
start an encode.  `signal` (`saveAndExit`): return at once if `_isSaving`,
else set the flag and start the shutdown save.  `done`: a manual encode's
`then`/`catch` clears `_isSaving`; the shutdown save's `finally` calls
`process.exit(0)`. -/
def saveStep (s : SaveMachine) (e : SaveEvent) : SaveMachine :=
  match e with
  | .forceSave =>
      if s.isSaving then { s with conflicts := s.conflicts + 1 }
      else { s with isSaving := true, inflight := s.inflight ++ [.manual],
                    savesStarted := s.savesStarted + 1 }
  | .signal =>
      if s.isSaving then s
      else { s with isSaving := true, inflight := s.inflight ++ [.shutdown],
                    savesStarted := s.savesStarted + 1 }
  | .done =>
      match s.inflight with
      | [] => s
      | .manual :: rest => { s with isSaving := false, inflight := rest }
      | .shutdown :: rest => { s with inflight := rest, exited := true }

/-- Run a sequence of save events. -/
def saveRun (s : SaveMachine) (es : List SaveEvent) : SaveMachine :=
  es.foldl saveStep s

/-- The single-flight invariant: when `_isSaving` is clear nothing runs, and
never more than one encode runs. -/
def SaveInv (s : SaveMachine) : Prop :=
  (s.isSaving = false → s.inflight = []) ∧ s.inflight.length ≤ 1

/-- `saveStep` preserves the single-flight invariant. -/
theorem saveStep_inv (s : SaveMachine) (e : SaveEvent) (h : SaveInv s) :
    SaveInv (saveStep s e) := by
  obtain ⟨hclear, hlen⟩ := h
  cases e with
  | forceSave =>
      simp only [saveStep]
      by_cases hs : s.isSaving = true
      · rw [if_pos hs]
        exact ⟨hclear, hlen⟩
      · rw [if_neg hs]
        have hq : s.inflight = [] := hclear (by simpa using hs)
        exact ⟨fun hc => by simp at hc, by simp [hq]⟩
  | signal =>
      simp only [saveStep]
      by_cases hs : s.isSaving = true
      · rw [if_pos hs]
        exact ⟨hclear, hlen⟩
      · rw [if_neg hs]
        have hq : s.inflight = [] := hclear (by simpa using hs)
        exact ⟨fun hc => by simp at hc, by simp [hq]⟩
  | done =>
      simp only [saveStep]
      cases hq : s.inflight with
      | nil =>
          exact ⟨hclear, hlen⟩
      | cons k rest =>
          have hrest : rest = [] := by
            rw [hq] at hlen
            simpa using hlen
          cases k with
          | manual => exact ⟨fun _ => hrest, by simp [hrest]⟩
          | shutdown => exact ⟨fun _ => hrest, by simp [hrest]⟩

/-- `saveRun` preserves the single-flight invariant. -/
theorem saveRun_inv (es : List SaveEvent) :
    ∀ s : SaveMachine, SaveInv s → SaveInv (saveRun s es) := by
  induction es with
  | nil => intro s h; exact h
  | cons e es ih => intro s h; exact ih (saveStep s e) (saveStep_inv s e h)

/-- C9 counterexample: trace `[forceSave, signal, done]` — a termination
signal arrives while the manual save is in flight.  `saveAndExit` returns at
once, and after the manual save settles nothing is left running, yet
`process.exit` was never reached: the claim's "the process exits after at
most one best-effort save" fails. -/
theorem save_exit_counterexample :
    (saveRun initSave [.forceSave, .signal, .done]).exited = false ∧
      (saveRun initSave [.forceSave, .signal, .done]).inflight = [] ∧
      (saveRun initSave [.forceSave, .signal, .done]).savesStarted = 1 := by
  refine ⟨rfl, rfl, rfl⟩

/-- C9 (amended): at most one encode is ever in flight; a forced save during
a save replies with a conflict and starts nothing; a signal during a save
starts nothing and returns without exiting; the process exits (after exactly
one best-effort save) only when the signal arrives with no save in flight. -/
theorem save_single_flight (es : List SaveEvent) (s : SaveMachine) :
    (saveRun initSave es).inflight.length ≤ 1 ∧
    (s.isSaving = true →
      saveStep s .forceSave = { s with conflicts := s.conflicts + 1 } ∧
      saveStep s .signal = s) ∧
    (s.isSaving = false → s.inflight = [] →
      (saveStep s .signal).inflight = [SaveKind.shutdown] ∧
      (saveStep s .signal).savesStarted = s.savesStarted + 1 ∧
      (saveStep (saveStep s .signal) .done).exited = true) := by
  refine ⟨(saveRun_inv es initSave ⟨fun _ => rfl, by simp [initSave]⟩).2, ?_, ?_⟩
  · intro hs
    constructor
    · simp only [saveStep]; rw [if_pos hs]
    · simp only [saveStep]; rw [if_pos hs]
  · intro hs hq
    have h1 : saveStep s .signal =
        { s with isSaving := true, inflight := s.inflight ++ [.shutdown],
                 savesStarted := s.savesStarted + 1 } := by
      simp only [saveStep]
      rw [if_neg (by simp [hs])]
    refine ⟨by rw [h1]; simp [hq], by rw [h1], ?_⟩
    rw [h1]
    simp only [saveStep]
    simp [hq]

/-- Concrete instance of `save_single_flight`: signal on an idle process,
then the encode settles and the process exits. -/
theorem save_single_flight_witness :
    (saveRun initSave [.signal, .forceSave, .done]).inflight.length ≤ 1 ∧
      (saveStep (saveStep initSave .signal) .done).exited = true := by
  have h := save_single_flight [.signal, .forceSave, .done] initSave
  exact ⟨h.1, (h.2.2 rfl rfl).2.2⟩

/-! ## Snapshot codec: palette parsing and nearest-color quantization -/

/-- Value of one hexadecimal digit, as `parseInt(..., 16)` reads it on the
palette strings (digits and uppercase letters). -/
def hexDigit (ch : Char) : Int :=
  if '0' ≤ ch ∧ ch ≤ '9' then ((ch.toNat - 48 : Nat) : Int)
  else if 'A' ≤ ch ∧ ch ≤ 'F' then ((ch.toNat - 55 : Nat) : Int)
  else 0

/-- `parseInt(col.slice(i, i + 2), 16)`: the two-character hex slice starting
at position `i` of a palette string. -/
def hexPair (col : String) (i : Nat) : Int :=
  16 * hexDigit (col.toList.getD i '0') + hexDigit (col.toList.getD (i + 1) '0')

/-- `const paletteRGB = COLORS.map(col => [parseInt(col.slice(1,3),16), ...])`. -/
def paletteRGB : List (Int × Int × Int) :=
  COLORS.map (fun col => (hexPair col 1, hexPair col 3, hexPair col 5))

/-- The parsed palette, as explicit RGB triples. -/
theorem paletteRGB_eq : paletteRGB =
    [(255, 255, 255), (228, 228, 228), (136, 136, 136), (34, 34, 34),
     (255, 167, 209), (229, 0, 0), (229, 149, 0), (160, 106, 66),
     (229, 217, 0), (148, 224, 68), (2, 190, 1), (0, 211, 221),
     (0, 131, 199), (0, 0, 234), (207, 110, 228), (130, 0, 128)] := by decide

/-- `(r-pr)*(r-pr) + (g-pg)*(g-pg) + (b-pb)*(b-pb)`. -/
def sqDist (r g b : Int) (p : Int × Int × Int) : Int :=
  (r - p.1) * (r - p.1) + (g - p.2.1) * (g - p.2.1) + (b - p.2.2) * (b - p.2.2)

/-- `dist < bestDist`, where `bestDist` starts as `Infinity` (`none`). -/
def distLt (d : Int) : Option Int → Bool
  | none => true
  | some best => decide (d < best)

/-- The palette scan of the `parsed` handler: walk the palette with the
current best index and best distance, taking a strictly smaller distance as
the new best (so the first index wins exact ties). -/
def nearestGo (r g b : Int) : List (Int × Int × Int) → Nat → Nat → Option Int → Nat
  | [], _, bestIndex, _ => bestIndex
  | p :: rest, i, bestIndex, bestDist =>
      if distLt (sqDist r g b p) bestDist then
        nearestGo r g b rest (i + 1) i (some (sqDist r g b p))
      else
        nearestGo r g b rest (i + 1) bestIndex bestDist

/-- `bestIndex` after scanning the whole palette from `bestIndex = 0`,
`bestDist = Infinity`. -/
def nearestIndex (r g b : Int) : Nat := nearestGo r g b paletteRGB 0 0 none

/-- Distance from `(r,g,b)` to palette entry `j`. -/
def sqDistAt (r g b : Int) (j : Nat) : Int := sqDist r g b (paletteRGB.getD j (0, 0, 0))

/-- Spec-side characterization (from the spec's words, to be compared with
`nearestIndex`): `n` is a palette index minimizing the squared Euclidean RGB
distance, with exact-distance ties broken by the lowest index. -/
def isNearestChoice (r g b : Int) (n : Nat) : Prop :=
  n < paletteRGB.length ∧
  (∀ j < paletteRGB.length, sqDistAt r g b n ≤ sqDistAt r g b j) ∧
  (∀ j < n, sqDistAt r g b n < sqDistAt r g b j)

/-- Invariant of the palette scan: starting at offset `i` with a best index
whose distance bounds all entries before `i`, the scan returns the least
minimizer over the whole palette. -/
theorem nearestGo_spec (r g b : Int) :
    ∀ (rest : List (Int × Int × Int)) (i bi : Nat) (bd : Option Int),
      (∀ j, rest.getD j (0, 0, 0) = paletteRGB.getD (i + j) (0, 0, 0)) →
      i + rest.length = paletteRGB.length →
      (match bd with
       | none => i = 0
       | some v => bi < i ∧ v = sqDistAt r g b bi ∧
           (∀ j < i, v ≤ sqDistAt r g b j) ∧ (∀ j < bi, v < sqDistAt r g b j)) →
      0 < paletteRGB.length →
      isNearestChoice r g b (nearestGo r g b rest i bi bd) := by
  intro rest
  induction rest with
  | nil =>
      intro i bi bd hsplit hlen hinv hpos
      simp only [nearestGo]
      cases bd with
      | none =>
          exfalso
          simp only [List.length_nil, Nat.add_zero] at hlen
          omega
      | some v =>
          obtain ⟨hbi, hv, hall, hbest⟩ := hinv
          subst hv
          simp only [List.length_nil, Nat.add_zero] at hlen
          exact ⟨by omega, fun j hj => hall j (by omega), hbest⟩
  | cons p rest ih =>
      intro i bi bd hsplit hlen hinv hpos
      have hd : sqDist r g b p = sqDistAt r g b i := by
        have h0 := hsplit 0
        simp only [List.getD_cons_zero, Nat.add_zero] at h0
        unfold sqDistAt
        rw [h0]
      have hsplit' : ∀ j, rest.getD j (0, 0, 0) = paletteRGB.getD (i + 1 + j) (0, 0, 0) := by
        intro j
        have := hsplit (j + 1)
        simpa [Nat.add_assoc, Nat.add_comm 1 j] using this
      have hlen' : i + 1 + rest.length = paletteRGB.length := by
        simp only [List.length_cons] at hlen
        omega
      simp only [nearestGo]
      by_cases hlt : distLt (sqDist r g b p) bd = true
      · rw [if_pos hlt]
        apply ih (i + 1) i (some (sqDist r g b p)) hsplit' hlen' ?_ hpos
        refine ⟨Nat.lt_succ_self i, hd, ?_, ?_⟩
        · intro j hj
          by_cases hji : j = i
          · subst hji; omega
          · have hji' : j < i := by omega
            cases bd with
            | none =>
                have : i = 0 := hinv
                omega
            | some v =>
                obtain ⟨_, _, hall, _⟩ := hinv
                have h1 : sqDist r g b p < v := by
                  simpa [distLt] using hlt
                have h2 := hall j hji'
                omega
        · intro j hj
          cases bd with
          | none =>
              have : i = 0 := hinv
              omega
          | some v =>
              obtain ⟨_, _, hall, _⟩ := hinv
              have h1 : sqDist r g b p < v := by
                simpa [distLt] using hlt
              have h2 := hall j (by omega)
              omega
      · rw [if_neg hlt]
        cases bd with
        | none => exact absurd (by simp [distLt]) hlt
        | some v =>
            obtain ⟨hbi, hv, hall, hbest⟩ := hinv
            apply ih (i + 1) bi (some v) hsplit' hlen' ?_ hpos
            refine ⟨by omega, hv, ?_, hbest⟩
            intro j hj
            by_cases hji : j = i
            · subst hji
              have h1 : ¬ sqDist r g b p < v := by
                simpa [distLt] using hlt
              omega
            · exact hall j (by omega)

/-- `nearestIndex` computes the spec's nearest-color choice: the palette
index of minimal squared distance, lowest index on ties. -/
theorem nearestIndex_is_nearest (r g b : Int) :
    isNearestChoice r g b (nearestIndex r g b) := by
  apply nearestGo_spec r g b paletteRGB 0 0 none
  · intro j
    rw [Nat.zero_add]
  · rw [Nat.zero_add]
  · rfl
  · rw [paletteRGB_eq]
    decide

/-- The least minimizer is unique. -/
theorem isNearestChoice_unique (r g b : Int) (m n : Nat)
    (hm : isNearestChoice r g b m) (hn : isNearestChoice r g b n) : m = n := by
  by_contra hne
  rcases Nat.lt_or_ge m n with hlt | hge
  · have h1 := hn.2.2 m hlt
    have h2 := hm.2.1 n hn.1
    omega
  · have hlt : n < m := by omega
    have h1 := hm.2.2 n hlt
    have h2 := hn.2.1 m hm.1
    omega

/-! ## Snapshot codec: `exportCanvasToPNG` fill and the `parsed` load loop -/

/-- A decoded raster image: dimensions plus the flat RGBA byte buffer
(`data[(y * width + x) << 2]` is the red channel of pixel `(x, y)`). -/
structure Image where
  width : Nat
  height : Nat
  data : Nat → Int

/-- `const color = COLORS[colorIndex] || '#000000';` — an index outside the
palette (impossible for values the store accepts) falls back to black. -/
def colorOf (v : Int) : String :=
  if v < 0 then "#000000" else COLORS.getD v.toNat "#000000"

/-- The fill loop of `exportCanvasToPNG`, pointwise in the byte position
`j = (i << 2) + channel` (the loop writes each byte exactly once): red,
green, blue parsed from the cell's palette color, alpha 255. -/
def exportData (c : Canvas) (j : Nat) : Int :=
  if j / 4 < CANVAS_SIZE * CANVAS_SIZE then
    match j % 4 with
    | 0 => hexPair (colorOf (c ((j / 4 : Nat) : Int))) 1
    | 1 => hexPair (colorOf (c ((j / 4 : Nat) : Int))) 3
    | 2 => hexPair (colorOf (c ((j / 4 : Nat) : Int))) 5
    | _ => 255
  else 0

/-- The PNG built by `exportCanvasToPNG`: `CANVAS_SIZE × CANVAS_SIZE`, data
from the fill loop. -/
def exportImage (c : Canvas) : Image :=
  ⟨CANVAS_SIZE, CANVAS_SIZE, exportData c⟩

/-- Body of the load loop for pixel `(x, y)`: read r, g, b at
`idx = (y * this.width + x) << 2` and scan the palette for the best index. -/
def quantizePixel (img : Image) (x y : Nat) : Nat :=
  nearestIndex (img.data ((y * img.width + x) * 4))
    (img.data ((y * img.width + x) * 4 + 1))
    (img.data ((y * img.width + x) * 4 + 2))

/-- Inner `x` loop of the `parsed` handler for row `y`:
`setPixel(x, y, bestIndex)` for `x = 0 .. w-1`. -/
def loadRow (img : Image) (w y : Nat) (c : Canvas) : Canvas :=
  (List.range w).foldl
    (fun c (x : Nat) =>
      (setPixel c (x : Int) (y : Int) ((quantizePixel img x y : Nat) : Int)).2) c

/-- Outer `y` loop: rows `0 .. h-1`. -/
def loadRows (img : Image) (w h : Nat) (c : Canvas) : Canvas :=
  (List.range h).foldl (fun c y => loadRow img w y c) c

/-- The whole `parsed` handler acting on the canvas, with
`w = Math.min(this.width, CANVAS_SIZE)` and
`h = Math.min(this.height, CANVAS_SIZE)`. -/
def loadSnapshot (img : Image) (c : Canvas) : Canvas :=
  loadRows img (min img.width CANVAS_SIZE) (min img.height CANVAS_SIZE) c

/-- `paletteRGB.length = 16`, so every scan result is a valid index. -/
theorem nearestIndex_lt (r g b : Int) : nearestIndex r g b < 16 := by
  have h := (nearestIndex_is_nearest r g b).1
  rw [paletteRGB_eq] at h
  simpa using h

/-- A successful `setPixel` writes exactly one flat index. -/
theorem setPixel_write (c : Canvas) (x y v : Int)
    (hx0 : 0 ≤ x) (hx : x < (CANVAS_SIZE : Int))
    (hy0 : 0 ≤ y) (hy : y < (CANVAS_SIZE : Int))
    (hv0 : 0 ≤ v) (hv : v < 16) (i : Int) :
    (setPixel c x y v).2 i = if i = getPixelIndex x y then v else c i := by
  have hlen : (COLORS.length : Int) = 16 := by decide
  unfold setPixel
  rw [if_neg (by push_neg; exact ⟨hx0, hx, hy0, hy⟩),
    if_neg (by push_neg; rw [hlen]; exact ⟨hv0, hv⟩)]

/-- Flat indices of distinct valid coordinates are distinct. -/
theorem getPixelIndex_inj (x1 y1 x2 y2 : Int)
    (hx1 : 0 ≤ x1) (hx1' : x1 < (CANVAS_SIZE : Int))
    (hx2 : 0 ≤ x2) (hx2' : x2 < (CANVAS_SIZE : Int))
    (h : getPixelIndex x1 y1 = getPixelIndex x2 y2) : x1 = x2 ∧ y1 = y2 := by
  unfold getPixelIndex CANVAS_SIZE at *
  push_cast at *
  omega

/-- Pointwise effect of one row of the load loop: row `y` receives the
quantized pixels for columns `0 .. w-1`, everything else is untouched. -/
theorem loadRow_cell (img : Image) (w y : Nat) (c : Canvas)
    (hw : w ≤ CANVAS_SIZE) (hy : y < CANVAS_SIZE)
    (x' y' : Int) (hx'0 : 0 ≤ x') (hx' : x' < (CANVAS_SIZE : Int))
    (hy'0 : 0 ≤ y') (hy' : y' < (CANVAS_SIZE : Int)) :
    getPixel (loadRow img w y c) x' y' =
      if y' = (y : Int) ∧ x' < (w : Int)
      then ((quantizePixel img x'.toNat y : Nat) : Int)
      else getPixel c x' y' := by
  induction w generalizing c with
  | zero =>
      unfold loadRow
      simp only [List.range_zero, List.foldl_nil]
      rw [if_neg]
      rintro ⟨-, hlt⟩
      simp only [Nat.cast_zero] at hlt
      omega
  | succ w ih =>
      have hw' : w ≤ CANVAS_SIZE := by omega
      have hstep : loadRow img (w + 1) y c =
          (setPixel (loadRow img w y c) (w : Int) (y : Int)
            ((quantizePixel img w y : Nat) : Int)).2 := by
        unfold loadRow
        rw [show List.range (w + 1) = List.range w ++ [w] by
              simpa using List.range_succ w,
            List.foldl_append]
        simp
      rw [hstep]
      show (setPixel (loadRow img w y c) (w : Int) (y : Int)
          ((quantizePixel img w y : Nat) : Int)).2 (getPixelIndex x' y') = _
      rw [setPixel_write _ _ _ _ (by positivity) (by exact_mod_cast (by omega : w < CANVAS_SIZE))
            (by positivity) (by exact_mod_cast hy)
            (by positivity) (by exact_mod_cast nearestIndex_lt _ _ _)]
      by_cases heq : getPixelIndex x' y' = getPixelIndex (w : Int) (y : Int)
      · rw [if_pos heq]
        obtain ⟨hxw, hyy⟩ := getPixelIndex_inj x' y' (w : Int) (y : Int) hx'0 hx'
          (by positivity) (by exact_mod_cast (by omega : w < CANVAS_SIZE)) heq
        rw [if_pos ⟨hyy, by rw [hxw]; exact_mod_cast Nat.lt_succ_self w⟩]
        have : x'.toNat = w := by omega
        rw [this]
      · rw [if_neg heq]
        have hrest : (loadRow img w y c) (getPixelIndex x' y') =
            getPixel (loadRow img w y c) x' y' := rfl
        rw [hrest, ih c hw']
        by_cases hcond : y' = (y : Int) ∧ x' < (w : Int)
        · rw [if_pos hcond, if_pos ⟨hcond.1, by push_cast; omega⟩]
        · rw [if_neg hcond]
          by_cases hcond2 : y' = (y : Int) ∧ x' < ((w + 1 : Nat) : Int)
          · exfalso
            have hxw : x' = (w : Int) := by
              push_cast at hcond hcond2
              rcases hcond2 with ⟨he, hl⟩
              by_cases hxlt : x' < (w : Int)
              · exact absurd ⟨he, hxlt⟩ hcond
              · omega
            exact heq (by rw [hxw, hcond2.1])
          · rw [if_neg hcond2]

/-- Pointwise effect of the whole load loop: rows `0 .. h-1`, columns
`0 .. w-1` receive their quantized pixels, everything else is untouched. -/
theorem loadRows_cell (img : Image) (w h : Nat) (c : Canvas)
    (hw : w ≤ CANVAS_SIZE) (hh : h ≤ CANVAS_SIZE)
    (x' y' : Int) (hx'0 : 0 ≤ x') (hx' : x' < (CANVAS_SIZE : Int))
    (hy'0 : 0 ≤ y') (hy' : y' < (CANVAS_SIZE : Int)) :
    getPixel (loadRows img w h c) x' y' =
      if y' < (h : Int) ∧ x' < (w : Int)
      then ((quantizePixel img x'.toNat y'.toNat : Nat) : Int)
      else getPixel c x' y' := by
  induction h generalizing c with
  | zero =>
      unfold loadRows
      simp only [List.range_zero, List.foldl_nil]
      rw [if_neg]
      rintro ⟨hlt, -⟩
      simp only [Nat.cast_zero] at hlt
      omega
  | succ h ih =>
      have hh' : h ≤ CANVAS_SIZE := by omega
      have hstep : loadRows img w (h + 1) c = loadRow img w h (loadRows img w h c) := by
        unfold loadRows
        rw [show List.range (h + 1) = List.range h ++ [h] by
              simpa using List.range_succ h,
            List.foldl_append]
        simp
      rw [hstep,
        loadRow_cell img w h (loadRows img w h c) hw (by omega) x' y' hx'0 hx' hy'0 hy']
      by_cases hrow : y' = (h : Int) ∧ x' < (w : Int)
      · rw [if_pos hrow, if_pos ⟨by rw [hrow.1]; push_cast; omega, hrow.2⟩]
        have : y'.toNat = h := by omega
        rw [this]
      · rw [if_neg hrow, ih c hh']
        by_cases hcond : y' < (h : Int) ∧ x' < (w : Int)
        · rw [if_pos hcond, if_pos ⟨by push_cast; omega, hcond.2⟩]
        · rw [if_neg hcond]
          by_cases hcond2 : y' < ((h + 1 : Nat) : Int) ∧ x' < (w : Int)
          · exfalso
            push_cast at hrow hcond hcond2
            rcases hcond2 with ⟨hl, hxw⟩
            by_cases hyh : y' = (h : Int)
            · exact hrow ⟨hyh, hxw⟩
            · exact hcond ⟨by omega, hxw⟩
          · rw [if_neg hcond2]

/-- The three color bytes the export loop writes for cell `y*CANVAS_SIZE+x`. -/
theorem exportData_pixel (c : Canvas) (x y : Nat)
    (hx : x < CANVAS_SIZE) (hy : y < CANVAS_SIZE) :
    exportData c ((y * CANVAS_SIZE + x) * 4) =
        hexPair (colorOf (c ((y * CANVAS_SIZE + x : Nat) : Int))) 1 ∧
      exportData c ((y * CANVAS_SIZE + x) * 4 + 1) =
        hexPair (colorOf (c ((y * CANVAS_SIZE + x : Nat) : Int))) 3 ∧
      exportData c ((y * CANVAS_SIZE + x) * 4 + 2) =
        hexPair (colorOf (c ((y * CANVAS_SIZE + x : Nat) : Int))) 5 := by
  have hi : y * CANVAS_SIZE + x < CANVAS_SIZE * CANVAS_SIZE := by
    unfold CANVAS_SIZE at *
    omega
  refine ⟨?_, ?_, ?_⟩
  · have hdiv : (y * CANVAS_SIZE + x) * 4 / 4 = y * CANVAS_SIZE + x := by omega
    have hmod : (y * CANVAS_SIZE + x) * 4 % 4 = 0 := by omega
    unfold exportData
    rw [hdiv, hmod, if_pos hi]
  · have hdiv : ((y * CANVAS_SIZE + x) * 4 + 1) / 4 = y * CANVAS_SIZE + x := by omega
    have hmod : ((y * CANVAS_SIZE + x) * 4 + 1) % 4 = 1 := by omega
    unfold exportData
    rw [hdiv, hmod, if_pos hi]
  · have hdiv : ((y * CANVAS_SIZE + x) * 4 + 2) / 4 = y * CANVAS_SIZE + x := by omega
    have hmod : ((y * CANVAS_SIZE + x) * 4 + 2) % 4 = 2 := by omega
    unfold exportData
    rw [hdiv, hmod, if_pos hi]


/-- The parsed palette entry `n` is exactly the triple of hex slices of
`COLORS[n]`. -/
theorem paletteRGB_getD : ∀ n < 16,
    paletteRGB.getD n (0, 0, 0) =
      (hexPair (COLORS.getD n "#000000") 1, hexPair (COLORS.getD n "#000000") 3,
        hexPair (COLORS.getD n "#000000") 5) := by decide

/-- Scanning the palette with one of its own colors returns that color's
index: the distance there is zero and all palette entries are distinct. -/
theorem nearest_palette : ∀ n < 16,
    nearestIndex (paletteRGB.getD n (0, 0, 0)).1 (paletteRGB.getD n (0, 0, 0)).2.1
      (paletteRGB.getD n (0, 0, 0)).2.2 = n := by decide

/-- C7: exporting a canvas whose every cell is a valid palette index to a
snapshot image and loading that image back through nearest-color
quantization reproduces every cell of the original canvas. -/
theorem snapshot_roundtrip (c : Canvas)
    (hvalid : ∀ i : Int, 0 ≤ i → i < ((CANVAS_SIZE * CANVAS_SIZE : Nat) : Int) →
      0 ≤ c i ∧ c i < 16)
    (x y : Int) (hx0 : 0 ≤ x) (hx : x < (CANVAS_SIZE : Int))
    (hy0 : 0 ≤ y) (hy : y < (CANVAS_SIZE : Int)) :
    getPixel (loadSnapshot (exportImage c) initialCanvas) x y = getPixel c x y := by
  unfold loadSnapshot
  have hminw : min (exportImage c).width CANVAS_SIZE = CANVAS_SIZE := by
    simp [exportImage]
  have hminh : min (exportImage c).height CANVAS_SIZE = CANVAS_SIZE := by
    simp [exportImage]
  rw [hminw, hminh,
    loadRows_cell (exportImage c) CANVAS_SIZE CANVAS_SIZE initialCanvas le_rfl le_rfl
      x y hx0 hx hy0 hy,
    if_pos ⟨hy, hx⟩]
  have hxN : x.toNat < CANVAS_SIZE := by omega
  have hyN : y.toNat < CANVAS_SIZE := by omega
  have hwidth : (exportImage c).width = CANVAS_SIZE := rfl
  obtain ⟨h0, h1, h2⟩ := exportData_pixel c x.toNat y.toNat hxN hyN
  have hv : c ((y.toNat * CANVAS_SIZE + x.toNat : Nat) : Int) = getPixel c x y := by
    unfold getPixel getPixelIndex
    congr 1
    unfold CANVAS_SIZE
    push_cast
    omega
  have hvalid' : 0 ≤ getPixel c x y ∧ getPixel c x y < 16 := by
    have hidx0 : 0 ≤ getPixelIndex x y := by
      unfold getPixelIndex CANVAS_SIZE at *
      push_cast at *
      omega
    have hidx1 : getPixelIndex x y < ((CANVAS_SIZE * CANVAS_SIZE : Nat) : Int) := by
      unfold getPixelIndex CANVAS_SIZE at *
      push_cast at *
      omega
    exact hvalid (getPixelIndex x y) hidx0 hidx1
  set v : Int := getPixel c x y with hvdef
  have hcolor : colorOf v = COLORS.getD v.toNat "#000000" := by
    unfold colorOf
    rw [if_neg (by omega)]
  have hquant : quantizePixel (exportImage c) x.toNat y.toNat = v.toNat := by
    unfold quantizePixel
    have hdata : (exportImage c).data = exportData c := rfl
    rw [hwidth, hdata, h0, h1, h2, hv, hcolor]
    have hgetD := paletteRGB_getD v.toNat (by omega)
    have hr : (paletteRGB.getD v.toNat (0, 0, 0)).1 =
        hexPair (COLORS.getD v.toNat "#000000") 1 := by rw [hgetD]
    have hg : (paletteRGB.getD v.toNat (0, 0, 0)).2.1 =
        hexPair (COLORS.getD v.toNat "#000000") 3 := by rw [hgetD]
    have hb : (paletteRGB.getD v.toNat (0, 0, 0)).2.2 =
        hexPair (COLORS.getD v.toNat "#000000") 5 := by rw [hgetD]
    rw [← hr, ← hg, ← hb]
    exact nearest_palette v.toNat (by omega)
  rw [hquant]
  omega

/-- Concrete instance of `snapshot_roundtrip` on the all-zero canvas. -/
theorem snapshot_roundtrip_witness :
    getPixel (loadSnapshot (exportImage initialCanvas) initialCanvas) 7 9 =
      getPixel initialCanvas 7 9 :=
  snapshot_roundtrip initialCanvas
    (fun i hi1 hi2 => ⟨le_refl 0, show (0 : Int) < 16 by decide⟩)
    7 9 (by decide) (by decide) (by decide) (by decide)

/-- C8: loading a snapshot image of arbitrary dimensions sets every cell in
the overlap of image and canvas to the spec's nearest-color choice for that
pixel (minimal squared RGB distance, lowest index on ties, at byte offset
`(y*width+x)*4`), and leaves every canvas cell outside the overlap at the
default value `0`. -/
theorem loadSnapshot_spec (img : Image) :
    (∀ x y : Nat, x < min img.width CANVAS_SIZE → y < min img.height CANVAS_SIZE →
      getPixel (loadSnapshot img initialCanvas) (x : Int) (y : Int) =
          ((quantizePixel img x y : Nat) : Int) ∧
        isNearestChoice (img.data ((y * img.width + x) * 4))
          (img.data ((y * img.width + x) * 4 + 1))
          (img.data ((y * img.width + x) * 4 + 2)) (quantizePixel img x y)) ∧
    (∀ x y : Int, 0 ≤ x → x < (CANVAS_SIZE : Int) → 0 ≤ y → y < (CANVAS_SIZE : Int) →
      ((min img.width CANVAS_SIZE : Int) ≤ x ∨ (min img.height CANVAS_SIZE : Int) ≤ y) →
      getPixel (loadSnapshot img initialCanvas) x y = 0) := by
  constructor
  · intro x y hx hy
    have hx' : x < CANVAS_SIZE := lt_of_lt_of_le hx (Nat.min_le_right _ _)
    have hy' : y < CANVAS_SIZE := lt_of_lt_of_le hy (Nat.min_le_right _ _)
    constructor
    · unfold loadSnapshot
      rw [loadRows_cell img _ _ initialCanvas (Nat.min_le_right _ _) (Nat.min_le_right _ _)
          (x : Int) (y : Int) (by positivity) (by exact_mod_cast hx')
          (by positivity) (by exact_mod_cast hy'),
        if_pos ⟨by exact_mod_cast hy, by exact_mod_cast hx⟩]
      rw [Int.toNat_natCast, Int.toNat_natCast]
    · exact nearestIndex_is_nearest _ _ _
  · intro x y hx0 hx hy0 hy hout
    unfold loadSnapshot
    rw [loadRows_cell img _ _ initialCanvas (Nat.min_le_right _ _) (Nat.min_le_right _ _)
        x y hx0 hx hy0 hy]
    rw [if_neg]
    · rfl
    · rintro ⟨h1, h2⟩
      rcases hout with h | h
      · omega
      · omega

/-- Concrete instance of `loadSnapshot_spec`: a 1×1 all-black image fills
cell (0,0) with its quantization and leaves cell (5,0), outside the overlap,
at 0. -/
theorem loadSnapshot_spec_witness :
    getPixel (loadSnapshot ⟨1, 1, fun _ => 0⟩ initialCanvas) 0 0 =
        ((quantizePixel ⟨1, 1, fun _ => 0⟩ 0 0 : Nat) : Int) ∧
      getPixel (loadSnapshot ⟨1, 1, fun _ => 0⟩ initialCanvas) 5 0 = 0 := by
  have h := loadSnapshot_spec ⟨1, 1, fun _ => 0⟩
  refine ⟨(h.1 0 0 (by decide) (by decide)).1, ?_⟩
  exact h.2 5 0 (by decide) (by decide) (by decide) (by decide) (Or.inl (by decide))

end FlappyPlace
